import Mathlib

/-!
Verification of the deadline-resolution and ranking core of the LearnLocal
application, as implemented in `src/app/studentPages/(tabs)/Home.tsx`
(namespace `Home` below) and in the duplicate found in
`src/services/authDebugService.js` (namespace `Debug` below, built on its
`parseFlexibleDate`).

Modelling conventions.

Times are milliseconds since the Unix epoch, as integers; a JavaScript
`Date` object is `Option Int`, with `none` standing for an Invalid Date
(a `Date` whose time value is NaN).  The local time zone is an explicit
parameter `tz : Int`, the local UTC offset in minutes (positive east of
Greenwich), so an instant `t` falls on local calendar day
`(t + tz * 60000) / 86400000`.

Heterogeneous record fields (`createdAt`, `deadline`, milestone `date`
values) are modelled by the inductive `JSVal`, which covers the shapes the
source handles: `undefined`, `null`, numbers, strings, `Date` objects
(possibly invalid), Firestore-Timestamp-like objects whose `toDate()`
returns a valid date, and objects whose `toDate()` throws.  JavaScript
functions that may throw are embedded as `Except Unit` computations.

The host function `new Date(string)` is modelled by `jsDateParse`, which
implements the portion of string parsing that the ECMAScript standard
mandates: a date-only `YYYY-MM-DD` string with a valid month and day is
parsed as UTC midnight; every other string is implementation-defined
behaviour in the standard and is modelled as unparseable.  The host
constructor `new Date(year, month, day)` (local midnight, with month and
day overflow rolling over) is modelled by `jsMakeDayLocal`.  Regular
expression whitespace is modelled as the characters space, tab, newline
and carriage return.
-/

namespace LearnLocal

/-- Milliseconds in a day. -/
def msPerDay : Int := 86400000

/-- Milliseconds in 30 days, the fixed fallback offset added to `createdAt`. -/
def thirtyDaysMs : Int := 2592000000

/-- Days since 1970-01-01 of the civil date `(y, m, d)` with month `1..12`;
the formula is linear in `d`, which matches the day-overflow rollover of the
JavaScript `Date` constructor. -/
def daysFromCivil (y m d : Int) : Int :=
  let yAdj := if m ≤ 2 then y - 1 else y
  let era : Int := yAdj.fdiv 400
  let yoe := yAdj - era * 400
  let mp := (m + 9).emod 12
  let doy := (153 * mp + 2).fdiv 5 + d - 1
  let doe := yoe * 365 + yoe.fdiv 4 - yoe.fdiv 100 + doy
  era * 146097 + doe - 719468

/-- Number of days in month `m` of year `y` (for validating ISO strings,
as `new Date("YYYY-MM-DD")` rejects out-of-range days). -/
def daysInMonth (y m : Int) : Int :=
  if m = 2 then
    if y.emod 4 = 0 ∧ (y.emod 100 ≠ 0 ∨ y.emod 400 = 0) then 29 else 28
  else if m = 4 ∨ m = 6 ∨ m = 9 ∨ m = 11 then 30
  else 31

/-- Model of `new Date(year, monthIndex, day)`: local midnight of the civil
date, with `monthIndex` zero-based and arbitrary month/day overflow rolling
over, at local UTC offset `tz` minutes. -/
def jsMakeDayLocal (tz y mm d : Int) : Int :=
  let y' := y + mm.fdiv 12
  let m0 := mm.emod 12
  daysFromCivil y' (m0 + 1) d * msPerDay - tz * 60000

/-- Local calendar day (days since epoch, in the frame of UTC offset `tz`
minutes) on which the instant `t` falls. -/
def localDayOfInstant (tz t : Int) : Int :=
  (t + tz * 60000) / msPerDay

/-- Digits of a string prefix folded to a natural number. -/
def digitsToInt (cs : List Char) : Int :=
  cs.foldl (fun acc c => acc * 10 + (Int.ofNat c.toNat - 48)) 0

/-- Model of the host `new Date(string)`: the ECMAScript-mandated date-only
form `YYYY-MM-DD` (month and day in range) parses to UTC midnight; all other
strings are modelled as unparseable (Invalid Date). -/
def jsDateParse (s : String) : Option Int :=
  match s.toList with
  | [y1, y2, y3, y4, '-', m1, m2, '-', d1, d2] =>
    if y1.isDigit ∧ y2.isDigit ∧ y3.isDigit ∧ y4.isDigit ∧
       m1.isDigit ∧ m2.isDigit ∧ d1.isDigit ∧ d2.isDigit then
      let y := digitsToInt [y1, y2, y3, y4]
      let m := digitsToInt [m1, m2]
      let d := digitsToInt [d1, d2]
      if 1 ≤ m ∧ m ≤ 12 ∧ 1 ≤ d ∧ d ≤ daysInMonth y m then
        some (daysFromCivil y m d * msPerDay)
      else none
    else none
  | _ => none

/-- A heterogeneous JavaScript field value, covering the shapes the source
code distinguishes.  `date none` is an Invalid Date object; `ts t` is a
Firestore-Timestamp-like object whose `toDate()` returns the valid date `t`;
`tsThrow` is an object whose `toDate()` call throws. -/
inductive JSVal where
  | undef
  | null
  | num (n : Int)
  | str (s : String)
  | date (t : Option Int)
  | ts (t : Int)
  | tsThrow
deriving Repr, DecidableEq

/-- JavaScript truthiness of a `JSVal` (objects are always truthy; `0`, the
empty string, `null` and `undefined` are falsy). -/
def JSVal.truthy : JSVal → Bool
  | .undef => false
  | .null => false
  | .num n => n ≠ 0
  | .str s => s ≠ ""
  | .date _ => true
  | .ts _ => true
  | .tsThrow => true

/-- Model of `new Date(value)` applied to a non-`Date`-specific value:
numbers are epoch milliseconds, strings go through the host string parser,
`Date` objects are copied, `null` coerces to `0`, `undefined` to NaN, and
plain objects (the Timestamp shapes, which stringify to `[object Object]`)
give an Invalid Date.  Result `none` is an Invalid Date. -/
def jsDateOfVal : JSVal → Option Int
  | .undef => none
  | .null => some 0
  | .num n => some n
  | .str s => jsDateParse s
  | .date t => t
  | .ts _ => none
  | .tsThrow => none

/-- Word character class of the regular expressions in the source. -/
def isWordChar (c : Char) : Bool := c.isAlphanum || c = '_'

/-- Whitespace character class (modelled subset). -/
def isWsChar (c : Char) : Bool := c = ' ' || c = '\t' || c = '\n' || c = '\r'

/-- `toLowerCase`, character by character. -/
def jsToLower (s : String) : String := String.mk (s.data.map Char.toLower)

/-- `replace(/,/g, "")`: removes every comma. -/
def stripCommas (s : String) : String :=
  String.mk (s.data.filter (fun c => c ≠ ','))

/-- `trim()`: strips leading and trailing whitespace. -/
def jsTrim (s : String) : String :=
  String.mk (((s.data.dropWhile isWsChar).reverse.dropWhile isWsChar).reverse)

/-- `split(sep)` for a one-character separator: splits at every occurrence,
keeping empty fragments, as the JavaScript `split` does. -/
def splitOnChar (sep : Char) : List Char → List (List Char)
  | [] => [[]]
  | c :: cs =>
    if c = sep then [] :: splitOnChar sep cs
    else
      match splitOnChar sep cs with
      | w :: ws => (c :: w) :: ws
      | [] => [[c]]

/-- Zero-based month index of a month name, per the manually mapped table in
`parseFlexibleDate` (three-letter abbreviations and full names, lowercased
before lookup). -/
def monthIndex (s : String) : Option Int :=
  match s with
  | "jan" => some 0 | "january" => some 0
  | "feb" => some 1 | "february" => some 1
  | "mar" => some 2 | "march" => some 2
  | "apr" => some 3 | "april" => some 3
  | "may" => some 4
  | "jun" => some 5 | "june" => some 5
  | "jul" => some 6 | "july" => some 6
  | "aug" => some 7 | "august" => some 7
  | "sep" => some 8 | "september" => some 8
  | "oct" => some 9 | "october" => some 9
  | "nov" => some 10 | "november" => some 10
  | "dec" => some 11 | "december" => some 11
  | _ => none

/-- Matcher for the anchored pattern of `parseFlexibleDate` that captures a
month word, a one-or-two-digit day, an optional comma, and a four-digit year
separated by whitespace, returning the captured (month word, day, year). -/
def matchMonthDayYear (s : String) : Option (String × Int × Int) :=
  let cs := s.toList
  let w := cs.takeWhile isWordChar
  let r1 := cs.dropWhile isWordChar
  if w = [] then none else
  let ws1 := r1.takeWhile isWsChar
  let r2 := r1.dropWhile isWsChar
  if ws1 = [] then none else
  let ds := r2.takeWhile Char.isDigit
  let r3 := r2.dropWhile Char.isDigit
  if ds = [] ∨ 2 < ds.length then none else
  let r4 := match r3 with
    | ',' :: rest => rest
    | rest => rest
  let ws2 := r4.takeWhile isWsChar
  let r5 := r4.dropWhile isWsChar
  if ws2 = [] then none else
  let ys := r5.takeWhile Char.isDigit
  let r6 := r5.dropWhile Char.isDigit
  if ys.length = 4 ∧ r6 = [] then
    some (String.mk w, digitsToInt ds, digitsToInt ys)
  else none

/-- Matcher for the unanchored prefix pattern of four digits, a dash, two
digits, a dash and two digits, returning the captured (year, month, day). -/
def matchIsoPrefix (s : String) : Option (Int × Int × Int) :=
  match s.toList with
  | y1 :: y2 :: y3 :: y4 :: '-' :: m1 :: m2 :: '-' :: d1 :: d2 :: _ =>
    if y1.isDigit ∧ y2.isDigit ∧ y3.isDigit ∧ y4.isDigit ∧
       m1.isDigit ∧ m2.isDigit ∧ d1.isDigit ∧ d2.isDigit then
      some (digitsToInt [y1, y2, y3, y4], digitsToInt [m1, m2],
            digitsToInt [d1, d2])
    else none
  | _ => none

/-- A date milestone entry of a record's `dateMilestones` list; only its
`date` field is consulted by the resolvers. -/
structure Milestone where
  date : JSVal
deriving Repr, DecidableEq

/-- An opportunity record, restricted to the fields the deadline and ranking
core reads.  `Option` fields are `undefined` when `none`; `dateMilestones`
is `none` when the field is absent or not an array. -/
structure Opp where
  id : String := ""
  dateMilestones : Option (List Milestone) := none
  deadline : JSVal := .undef
  createdAt : JSVal := .undef
  specificCollection : Option String := none
  category : Option String := none
  type : Option String := none
  organizationProfileVerificationStatus : Option String := none
  organizationVerificationStatus : Option String := none
  organizationNestedVerificationStatus : Option String := none
deriving Repr, DecidableEq

/-- Stable insertion of `x` into `l` before the first element `y` with
`le x y`. -/
def insertLe (le : α → α → Bool) (x : α) : List α → List α
  | [] => [x]
  | y :: ys => if le x y then x :: y :: ys else y :: insertLe le x ys

/-- Stable comparison sort with the boolean relation `le`; models the host
`Array.prototype.sort`, which is required to be stable. -/
def insSortLe (le : α → α → Bool) : List α → List α
  | [] => []
  | x :: xs => insertLe le x (insSortLe le xs)

/-- The fallback base date shared verbatim by both resolver copies:
`opportunity.createdAt?.toDate?.() || new Date(opportunity.createdAt)`.
A throwing `toDate` propagates; otherwise the result is a `Date`, possibly
invalid. -/
def createdAtBase (v : JSVal) : Except Unit (Option Int) :=
  match v with
  | .ts t => .ok (some t)
  | .tsThrow => .error ()
  | _ => .ok (jsDateOfVal v)

namespace Home

/-- The string strategies of `parseMilestoneDate` in `Home.tsx`: the host
`Date` constructor on the raw string, then on the comma-stripped trimmed
string, then on a reassembly of three space-separated parts with the month
part cut to three letters. -/
def parseMilestoneString (s : String) : Option Int :=
  match jsDateParse s with
  | some t => some t
  | none =>
    match jsDateParse (jsTrim (stripCommas s)) with
    | some t => some t
    | none =>
      match splitOnChar ' ' (jsTrim (stripCommas s)).data with
      | [p0, p1, p2] =>
        jsDateParse (String.mk (p0.take 3 ++ ' ' :: p1 ++ ' ' :: p2))
      | _ => none

/-- The `parseMilestoneDate` helper of `getEarliestDeadline` in `Home.tsx`:
an unguarded `toDate()` call (which may throw), then the string strategies,
then a passthrough of `Date` objects (including invalid ones), else `null`.
Result `none` is `null`; `some none` is an Invalid Date object. -/
def parseMilestoneDate (v : JSVal) : Except Unit (Option (Option Int)) :=
  match v with
  | .ts t => .ok (some (some t))
  | .tsThrow => .error ()
  | .str s => .ok ((parseMilestoneString s).map some)
  | .date t => .ok (some t)
  | _ => .ok none

/-- Sort key of a milestone in the comparator of `getEarliestDeadline`
(`parseMilestoneDate` is pure, so recomputing it agrees with the computation
checked by `msParseChecked`). -/
def milestoneKey (m : Milestone) : Option (Option Int) :=
  match parseMilestoneDate m.date with
  | .ok k => k
  | .error _ => some none

/-- The milestone comparator `(a?.getTime() ?? Infinity) - (b?.getTime() ??
Infinity)` of `Home.tsx`, as the relation "not greater": `null` keys behave
as positive infinity and Invalid-Date keys as NaN (a NaN comparator value is
treated as zero). -/
def milestoneKeyLe : Option (Option Int) → Option (Option Int) → Bool
  | some (some a), some (some b) => a ≤ b
  | some (some _), some none => true
  | some (some _), none => true
  | some none, _ => true
  | none, some (some _) => false
  | none, some none => true
  | none, none => true

/-- Evaluates `parseMilestoneDate` on every milestone, propagating the first
thrown exception; models that the sort comparator (and the re-parse of the
first sorted milestone) evaluates the parse of each milestone. -/
def msParseChecked : List Milestone → Except Unit Unit
  | [] => .ok ()
  | m :: rest =>
    match parseMilestoneDate m.date with
    | .error e => .error e
    | .ok _ => msParseChecked rest

/-- The milestone branch of `getEarliestDeadline` in `Home.tsx`: sort a copy
of the milestones by parsed date, re-parse the first, and return it when it
is a valid date; `.ok none` means the branch falls through. -/
def milestoneEarliest (ms : List Milestone) : Except Unit (Option Int) :=
  match msParseChecked ms with
  | .error e => .error e
  | .ok _ =>
    match (insSortLe (fun a b =>
        milestoneKeyLe (milestoneKey a) (milestoneKey b)) ms).head? with
    | some m =>
      match milestoneKey m with
      | some (some t) => .ok (some t)
      | _ => .ok none
    | none => .ok none

/-- The deadline branch of `getEarliestDeadline` in `Home.tsx`: when the
`deadline` field is truthy, `deadline.toDate ? deadline.toDate() : new
Date(deadline)`, returned when valid; `.ok none` means the branch falls
through. -/
def parseDeadline (v : JSVal) : Except Unit (Option Int) :=
  if v.truthy then
    match v with
    | .ts t => .ok (some t)
    | .tsThrow => .error ()
    | _ => .ok (jsDateOfVal v)
  else .ok none

/-- The guarded milestone branch: `milestoneEarliest` when the record has a
non-empty `dateMilestones` array, else fall through. -/
def milestonePhase (op : Opp) : Except Unit (Option Int) :=
  match op.dateMilestones with
  | some ms => if 0 < ms.length then milestoneEarliest ms else .ok none
  | none => .ok none

/-- The `getEarliestDeadline` resolver of `Home.tsx`: earliest parsed
milestone when one is valid, else the parsed `deadline` field when valid,
else the `createdAt` fallback plus 30 days (an Invalid Date when `createdAt`
is missing or unparseable).  A thrown `toDate()` propagates as `.error`. -/
def getEarliestDeadline (op : Opp) : Except Unit (Option Int) :=
  match milestonePhase op with
  | .error e => .error e
  | .ok (some t) => .ok (some t)
  | .ok none =>
    match parseDeadline op.deadline with
    | .error e => .error e
    | .ok (some t) => .ok (some t)
    | .ok none =>
      match createdAtBase op.createdAt with
      | .error e => .error e
      | .ok base => .ok (base.map (fun t => t + thirtyDaysMs))

end Home

/-- JavaScript string fallback `a || b`: the left string when it is truthy
(present and non-empty), else the right. -/
def strOr (a : Option String) (b : String) : String :=
  match a with
  | some s => if s = "" then b else s
  | none => b

/-- Truthiness of an optional string field. -/
def optStrTruthy : Option String → Bool
  | some s => s != ""
  | none => false

/-- `isOpportunityOrganizationVerified` of `Home.tsx`: the first non-nullish
value among `organizationProfile?.verificationStatus`,
`organizationVerificationStatus` and `organization?.verificationStatus`,
compared for equality with the literal `"verified"`. -/
def isOpportunityOrganizationVerified (op : Opp) : Bool :=
  (op.organizationProfileVerificationStatus.or
    (op.organizationVerificationStatus.or
      op.organizationNestedVerificationStatus)) == some "verified"

/-- `isOpportunityBookmarked` of `Home.tsx`: some bookmarked record has the
given id and the given originating collection. -/
def isOpportunityBookmarked (bookmarked : List Opp) (opportunityId : String)
    (specificCollection : Option String) : Bool :=
  bookmarked.any fun b =>
    b.id == opportunityId && b.specificCollection == specificCollection

namespace Home

/-- Whether the record carries a non-empty `dateMilestones` array (the guard
of the milestone branch and of the no-fetch delegation). -/
def msNonempty (op : Opp) : Bool :=
  match op.dateMilestones with
  | some (_ :: _) => true
  | _ => false

/-- Outcome of the external `getOpportunityDetails` fetch: a full record,
a null result, or a thrown error. -/
inductive FetchResult where
  | ok (full : Opp)
  | nullRes
  | err
deriving Repr, DecidableEq

/-- The `try` block of the asynchronous `getEarliestDeadlineFromFullData` of
`Home.tsx`: with a non-empty preview `dateMilestones` list it delegates to
the synchronous resolver without consulting the fetch outcome; otherwise,
when the record has a truthy `specificCollection` and id, the authoritative
record is fetched, and its resolution is used when it carries a
`dateMilestones` array; every other path resolves the original preview
record.  `.error` is a thrown error (including a rejected awaited fetch). -/
def fullDataTryBody (fetch : FetchResult) (op : Opp) :
    Except Unit (Option Int) :=
  if msNonempty op then getEarliestDeadline op
  else if optStrTruthy op.specificCollection && (op.id != "") then
    match fetch with
    | .err => .error ()
    | .nullRes => getEarliestDeadline op
    | .ok full =>
      if full.dateMilestones.isSome then getEarliestDeadline full
      else getEarliestDeadline op
  else getEarliestDeadline op

/-- The try/catch wrapper of `getEarliestDeadlineFromFullData`: any thrown
error falls back to resolving the original preview record (whose own thrown
error rejects the promise). -/
def getEarliestDeadlineFromFullData (fetch : FetchResult) (op : Opp) :
    Except Unit (Option Int) :=
  match fullDataTryBody fetch op with
  | .ok v => .ok v
  | .error _ => getEarliestDeadline op

/-- `filterOpportunities` of `Home.tsx`: keep records that are not resources
(the lowercased `specificCollection || category || ""` differs from
`"resources"`/`"resource"` and the `type` field differs, case-sensitively,
from those literals), that match the selected category (`"all"`, an exact
`specificCollection` match, or a lowercased effective-category match), and
whose organization is verified. -/
def filterOpportunities (selectedCategory : String) (opps : List Opp) :
    List Opp :=
  opps.filter fun op =>
    let sc := jsToLower (strOr op.specificCollection (strOr op.category ""))
    let isNotResource := sc != "resources" && sc != "resource" &&
      op.type != some "resources" && op.type != some "resource"
    let matchesCategory := selectedCategory == "all" ||
      op.specificCollection == some selectedCategory ||
      sc == jsToLower selectedCategory
    isNotResource && matchesCategory && isOpportunityOrganizationVerified op

/-- A sort key as the comparator sees it: the time value of a `Date`, with
`none` for NaN (an invalid date).  The relation is "the comparator value is
not positive", with a NaN difference treated as zero. -/
def keyLe (asc : Bool) : Option Int → Option Int → Bool
  | some a, some b => if asc then decide (a ≤ b) else decide (b ≤ a)
  | _, _ => true

/-- Evaluates the sort key on every element, propagating the first thrown
exception; models that the comparator evaluates each element's key. -/
def keysChecked (key : Opp → Except Unit (Option Int)) :
    List Opp → Except Unit Unit
  | [] => .ok ()
  | op :: rest =>
    match key op with
    | .error e => .error e
    | .ok _ => keysChecked key rest

/-- The key of an element inside the comparator (pure recomputation of the
checked key; an unreachable thrown key is read as NaN). -/
def keyVal (key : Opp → Except Unit (Option Int)) (op : Opp) : Option Int :=
  match key op with
  | .ok v => v
  | .error _ => none

/-- One `sort` call on a copy of the list: evaluate the keys (a thrown key
rejects), then stably sort by the comparator relation. -/
def sortWith (key : Opp → Except Unit (Option Int)) (asc : Bool)
    (opps : List Opp) : Except Unit (List Opp) :=
  match keysChecked key opps with
  | .error e => .error e
  | .ok _ =>
    .ok (insSortLe (fun a b => keyLe asc (keyVal key a) (keyVal key b)) opps)

/-- `sortOpportunities` of `Home.tsx`: spread into a copy, then sort by the
selected criterion; an unrecognized criterion returns the copy unsorted.
`createdAt` keys use the shared `createdAt?.toDate?.() || new Date(...)`
conversion; deadline keys use the synchronous resolver. -/
def sortOpportunities (sortBy : String) (opps : List Opp) :
    Except Unit (List Opp) :=
  match sortBy with
  | "newest" => sortWith (fun op => createdAtBase op.createdAt) false opps
  | "oldest" => sortWith (fun op => createdAtBase op.createdAt) true opps
  | "deadline-soon" => sortWith getEarliestDeadline true opps
  | "deadline-far" => sortWith getEarliestDeadline false opps
  | _ => .ok opps

/-- `getDisplayedOpportunities` of `Home.tsx`: for the `"saved"` category the
bookmarked collection itself is sorted directly; otherwise the fetched
collection is filtered and then sorted. -/
def getDisplayedOpportunities (selectedCategory sortBy : String)
    (opportunities bookmarked : List Opp) : Except Unit (List Opp) :=
  if selectedCategory == "saved" then sortOpportunities sortBy bookmarked
  else sortOpportunities sortBy (filterOpportunities selectedCategory opportunities)

/-- Reads an array object out of the store of array objects (references are
indices; this observes mutation for the frame properties). -/
def arrGet (σ : List (List Opp)) (r : Nat) : List Opp := σ.getD r []

/-- `filterOpportunities` at the store level: `Array.prototype.filter`
allocates a fresh array and leaves its receiver untouched. -/
def filterOpportunitiesStore (selectedCategory : String)
    (σ : List (List Opp)) (a : Nat) : List (List Opp) × Nat :=
  (σ ++ [filterOpportunities selectedCategory (arrGet σ a)], σ.length)

/-- `sortOpportunities` at the store level: `[...opps]` allocates a fresh
copy, and `sort` mutates (and returns) that fresh array only. -/
def sortOpportunitiesStore (sortBy : String) (σ : List (List Opp)) (a : Nat) :
    Except Unit (List (List Opp) × Nat) :=
  match sortOpportunities sortBy (arrGet σ a) with
  | .ok l' => .ok ((σ ++ [arrGet σ a]).set σ.length l', σ.length)
  | .error e => .error e

/-- Consecutive batches of five, as produced by the
`for (let i = 0; i < opps.length; i += batchSize)` slicing loop of
`fetchOpportunityDeadlines` with `batchSize = 5`. -/
def chunks5 : List α → List (List α)
  | [] => []
  | a :: b :: c :: d :: e :: rest => [a, b, c, d, e] :: chunks5 rest
  | l => [l]

/-- One record's entry in a deadline batch: resolve from full data, and on a
thrown error fall back to the synchronous resolver over the preview record
(whose own thrown error rejects the batch). -/
def deadlineEntry (fetch : Opp → FetchResult) (op : Opp) :
    Except Unit (String × Option Int) :=
  match getEarliestDeadlineFromFullData (fetch op) op with
  | .ok d => .ok (op.id, d)
  | .error _ =>
    match getEarliestDeadline op with
    | .ok d => .ok (op.id, d)
    | .error e => .error e

/-- `Promise.all` over one batch: the list of settled entries, or the first
rejection. -/
def batchEntries (fetch : Opp → FetchResult) :
    List Opp → Except Unit (List (String × Option Int))
  | [] => .ok []
  | op :: rest =>
    match deadlineEntry fetch op with
    | .error e => .error e
    | .ok ent =>
      match batchEntries fetch rest with
      | .error e => .error e
      | .ok l => .ok (ent :: l)

/-- `Map.set` on the id-to-deadline cache: replace the value of an existing
key in place, else append the new binding. -/
def cacheSet (cache : List (String × Option Int)) (k : String)
    (v : Option Int) : List (String × Option Int) :=
  if cache.any (fun p => p.1 == k) then
    cache.map (fun p => if p.1 == k then (k, v) else p)
  else cache ++ [(k, v)]

/-- The sequential batch loop of `fetchOpportunityDeadlines`: each batch is
awaited in full and its entries are written into the cache before the next
batch starts. -/
def runBatches (fetch : Opp → FetchResult) :
    List (List Opp) → List (String × Option Int) →
    Except Unit (List (String × Option Int))
  | [], cache => .ok cache
  | b :: bs, cache =>
    match batchEntries fetch b with
    | .error e => .error e
    | .ok entries =>
      runBatches fetch bs (entries.foldl (fun c ent => cacheSet c ent.1 ent.2) cache)

/-- `fetchOpportunityDeadlines` of `Home.tsx`: process the records in
consecutive batches of five and collect every settled entry into the
id-to-deadline cache. -/
def fetchOpportunityDeadlines (fetch : Opp → FetchResult) (opps : List Opp) :
    Except Unit (List (String × Option Int)) :=
  runBatches fetch (chunks5 opps) []

end Home

namespace Debug

/-- The `parseFlexibleDate` helper of `src/services/authDebugService.js`:
falsy values and invalid `Date` objects give `null`; a `toDate()` call is
guarded by try/catch; numbers are epoch milliseconds; strings go through the
host parser, then the month-name pattern with the manual month table
(constructing a local date), then the ISO prefix pattern (also constructing
a local date).  The function is total: it never throws. -/
def parseFlexibleDate (tz : Int) (v : JSVal) : Option Int :=
  if v.truthy then
    match v with
    | .date t => t
    | .ts t => some t
    | .tsThrow => none
    | .num n => some n
    | .str s =>
      match jsDateParse s with
      | some t => some t
      | none =>
        match matchMonthDayYear s with
        | some (monthStr, day, year) =>
          match monthIndex (jsToLower monthStr) with
          | some m => some (jsMakeDayLocal tz year m day)
          | none =>
            match matchIsoPrefix s with
            | some (y, m, d) => some (jsMakeDayLocal tz y (m - 1) d)
            | none => none
        | none =>
          match matchIsoPrefix s with
          | some (y, m, d) => some (jsMakeDayLocal tz y (m - 1) d)
          | none => none
    | _ => none
  else none

/-- The milestone branch of the `getEarliestDeadline` resolver of
`authDebugService.js`: milestones are parsed with `parseFlexibleDate`,
failures are filtered out before the stable sort by time, and the first
(earliest) valid milestone is the result. -/
def milestonePhase (tz : Int) (op : Opp) : Option Int :=
  match op.dateMilestones with
  | some ms =>
    if 0 < ms.length then
      let valid := ms.filterMap (fun m => parseFlexibleDate tz m.date)
      (insSortLe (fun a b => decide (a ≤ b)) valid).head?
    else none
  | none => none

/-- The `getEarliestDeadline` resolver of `authDebugService.js`: the earliest
valid milestone when one exists; else the `deadline` field parsed with
`parseFlexibleDate` when the field is truthy and parseable; else the shared
`createdAt` fallback plus 30 days. -/
def getEarliestDeadline (tz : Int) (op : Opp) : Except Unit (Option Int) :=
  match milestonePhase tz op with
  | some t => .ok (some t)
  | none =>
    match (if op.deadline.truthy then parseFlexibleDate tz op.deadline
           else none) with
    | some t => .ok (some t)
    | none =>
      match createdAtBase op.createdAt with
      | .error e => .error e
      | .ok base => .ok (base.map (fun t => t + thirtyDaysMs))

end Debug

/-- The times of the milestones of `ms` that parse successfully to a valid
date under `Home.parseMilestoneDate`, in list order. -/
def Home.validMilestoneTimes (ms : List Milestone) : List Int :=
  ms.filterMap fun m =>
    match Home.parseMilestoneDate m.date with
    | .ok (some (some t)) => some t
    | _ => none

/-! Concrete records and stores used to instantiate the theorems below. -/

/-- An unparseable milestone between two ISO milestones. -/
def exMilestones : List Milestone :=
  [⟨.str "2025-12-01"⟩, ⟨.str "bad-date"⟩, ⟨.str "2025-11-20"⟩]

/-- A record with an unparseable milestone and two ISO milestones. -/
def exMilestoneOp : Opp :=
  { id := "op-ms", dateMilestones := some exMilestones, createdAt := .num 0 }

/-- A record with no populated field at all. -/
def exEmptyOp : Opp := {}

/-- A record whose `createdAt` field is `null`. -/
def exNullCreatedOp : Opp := { id := "op-n", createdAt := .null }

/-- A record whose `createdAt` is a string no strategy of the fallback line
parses. -/
def exBadCreatedOp : Opp := { id := "op-b", createdAt := .str "not-a-date" }

/-- Whether a resolver outcome is an actual valid `Date`: the call returned
(rather than threw) and the returned `Date` object's time value is not NaN.
"The current time plus 30 days" is always a valid `Date`. -/
def returnsValidDate : Except Unit (Option Int) → Bool
  | .ok (some _) => true
  | _ => false

/-- A record whose `createdAt` carries a throwing `toDate`. -/
def exThrowOp : Opp := { createdAt := .tsThrow }

/-- A fetchable record whose `createdAt` carries a throwing `toDate`. -/
def exThrowFetchOp : Opp :=
  { id := "x", createdAt := .tsThrow, specificCollection := some "scholarships" }

/-- A record whose `createdAt` is a plain epoch number. -/
def exCreatedOp : Opp := { id := "op-c", createdAt := .num 1735689600000 }

/-- A verified record in the scholarships partition. -/
def exVerifiedOp : Opp :=
  { id := "op-v", specificCollection := some "scholarships",
    createdAt := .num 7,
    organizationProfileVerificationStatus := some "verified" }

/-- A verified record whose `category` field reads `"Resources"` while its
`specificCollection` field reads `"scholarships"`. -/
def exShadowOp : Opp :=
  { id := "op-s", specificCollection := some "scholarships",
    category := some "Resources",
    organizationProfileVerificationStatus := some "verified" }

/-- An unverified bookmarked record whose effective category normalizes to
`"resources"`. -/
def exSavedResourceOp : Opp :=
  { id := "op-r", category := some "Resources", createdAt := .num 5 }

/-- Twelve records for the batch-enrichment scenario. -/
def ex12 : List Opp :=
  [{ id := "a" }, { id := "b" }, { id := "c" }, { id := "d" }, { id := "e" },
   { id := "f" }, { id := "g" }, { id := "h" }, { id := "i" }, { id := "j" },
   { id := "k" }, { id := "l" }]

/-- A fetch oracle with mixed outcomes: a thrown error, a null result, and
successful fetches of a bare record. -/
def exFetch : Opp → Home.FetchResult := fun op =>
  if op.id = "a" then .err
  else if op.id = "b" then .nullRes
  else .ok {}

/-! Helper lemmas about the stable insertion sort. -/

theorem insertLe_perm (le : α → α → Bool) (x : α) (l : List α) :
    List.Perm (insertLe le x l) (x :: l) := by
  induction l with
  | nil => exact List.Perm.refl _
  | cons y ys ih =>
    simp only [insertLe]
    split
    · exact List.Perm.refl _
    · exact (ih.cons y).trans (List.Perm.swap x y ys)

theorem insSortLe_perm (le : α → α → Bool) (l : List α) :
    List.Perm (insSortLe le l) l := by
  induction l with
  | nil => exact List.Perm.refl _
  | cons x xs ih => exact (insertLe_perm le x _).trans (ih.cons x)

theorem insSortLe_head_min (le : α → α → Bool) :
    ∀ (l : List α), l ≠ [] →
    (∀ a ∈ l, ∀ b ∈ l, le a b = true ∨ le b a = true) →
    (∀ a ∈ l, ∀ b ∈ l, ∀ c ∈ l, le a b = true → le b c = true → le a c = true) →
    ∃ x, (insSortLe le l).head? = some x ∧ x ∈ l ∧ ∀ y ∈ l, le x y = true := by
  intro l
  induction l with
  | nil => intro hne _ _; exact absurd rfl hne
  | cons a l ih =>
    intro _ htot htrans
    by_cases hl : l = []
    · subst hl
      refine ⟨a, rfl, List.mem_singleton.mpr rfl, ?_⟩
      intro y hy
      rw [List.mem_singleton] at hy
      rw [hy]
      rcases htot a (by simp) a (by simp) with h | h <;> exact h
    · have htot' : ∀ x ∈ l, ∀ y ∈ l, le x y = true ∨ le y x = true :=
        fun x hx y hy => htot x (List.mem_cons_of_mem a hx) y (List.mem_cons_of_mem a hy)
      have htrans' : ∀ x ∈ l, ∀ y ∈ l, ∀ z ∈ l,
          le x y = true → le y z = true → le x z = true :=
        fun x hx y hy z hz => htrans x (List.mem_cons_of_mem a hx)
          y (List.mem_cons_of_mem a hy) z (List.mem_cons_of_mem a hz)
      obtain ⟨h, hhead, hmem, hmin⟩ := ih hl htot' htrans'
      obtain ⟨t, hsort⟩ : ∃ t, insSortLe le l = h :: t := by
        cases hs : insSortLe le l with
        | nil => rw [hs] at hhead; exact absurd hhead (by simp)
        | cons h' t =>
          rw [hs] at hhead
          simp only [List.head?_cons, Option.some.injEq] at hhead
          exact ⟨t, by rw [hhead]⟩
      have hmemA : a ∈ a :: l := List.mem_cons_self a _
      have hmemH : h ∈ a :: l := List.mem_cons_of_mem a hmem
      by_cases hle : le a h = true
      · refine ⟨a, ?_, hmemA, ?_⟩
        · rw [show insSortLe le (a :: l) =
            insertLe le a (insSortLe le l) from rfl, hsort]
          simp [insertLe, hle]
        · intro y hy
          rcases List.mem_cons.mp hy with hy | hy
          · rw [hy]
            rcases htot a hmemA a hmemA with h' | h' <;> exact h'
          · exact htrans a hmemA h hmemH y (List.mem_cons_of_mem a hy) hle (hmin y hy)
      · have hha : le h a = true := by
          rcases htot a hmemA h hmemH with h' | h'
          · exact absurd h' hle
          · exact h'
        refine ⟨h, ?_, hmemH, ?_⟩
        · rw [show insSortLe le (a :: l) =
            insertLe le a (insSortLe le l) from rfl, hsort]
          simp [insertLe, hle]
        · intro y hy
          rcases List.mem_cons.mp hy with hy | hy
          · rw [hy]; exact hha
          · exact hmin y hy

/-! Helper lemmas about batching, the cache, and totality of resolution. -/

namespace Home

theorem chunks5_flatten : ∀ (l : List α), (chunks5 l).flatten = l
  | [] => rfl
  | [_] => rfl
  | [_, _] => rfl
  | [_, _, _] => rfl
  | [_, _, _, _] => rfl
  | _ :: _ :: _ :: _ :: _ :: rest => by
    simp only [chunks5, List.flatten_cons, chunks5_flatten rest]
    rfl

theorem chunks5_length : ∀ (l : List α), (chunks5 l).length = (l.length + 4) / 5
  | [] => by simp [chunks5]
  | [_] => by simp [chunks5]
  | [_, _] => by simp [chunks5]
  | [_, _, _] => by simp [chunks5]
  | [_, _, _, _] => by simp [chunks5]
  | _ :: _ :: _ :: _ :: _ :: rest => by
    simp only [chunks5, List.length_cons, chunks5_length rest]
    omega

theorem chunks5_sizes : ∀ (l : List α), ∀ c ∈ chunks5 l,
    c.length = 5 ∨ (c.length = l.length % 5 ∧ (chunks5 l).getLast? = some c)
  | [], c => by simp [chunks5]
  | [a], c => by
    intro hc
    simp only [chunks5, List.mem_singleton] at hc
    subst hc
    exact Or.inr (by simp [chunks5])
  | [a, b], c => by
    intro hc
    simp only [chunks5, List.mem_singleton] at hc
    subst hc
    exact Or.inr (by simp [chunks5])
  | [a, b, d], c => by
    intro hc
    simp only [chunks5, List.mem_singleton] at hc
    subst hc
    exact Or.inr (by simp [chunks5])
  | [a, b, d, e], c => by
    intro hc
    simp only [chunks5, List.mem_singleton] at hc
    subst hc
    exact Or.inr (by simp [chunks5])
  | a :: b :: d :: e :: f :: rest, c => by
    intro hc
    simp only [chunks5, List.mem_cons] at hc
    rcases hc with hc | hc
    · subst hc; exact Or.inl rfl
    · rcases chunks5_sizes rest c hc with h | ⟨h1, h2⟩
      · exact Or.inl h
      · refine Or.inr ⟨?_, ?_⟩
        · simp only [List.length_cons, h1]; omega
        · have hrest : rest ≠ [] := by
            intro h
            subst h
            simp [chunks5] at hc
          have hchunks : chunks5 rest ≠ [] := by
            intro h
            rw [h] at hc
            simp at hc
          obtain ⟨c0, cs, hcs⟩ : ∃ c0 cs, chunks5 rest = c0 :: cs := by
            cases h : chunks5 rest with
            | nil => exact absurd h hchunks
            | cons c0 cs => exact ⟨c0, cs, rfl⟩
          rw [show chunks5 (a :: b :: d :: e :: f :: rest) =
            [a, b, d, e, f] :: chunks5 rest from rfl, hcs, List.getLast?_cons_cons]
          rw [hcs] at h2
          exact h2

end Home

theorem exceptIsOk_iff {ε α : Type} (e : Except ε α) :
    e.isOk = true ↔ ∃ v, e = .ok v := by
  cases e <;> simp [Except.isOk, Except.toBool]

theorem createdAtBase_ok (v : JSVal) (h : v ≠ .tsThrow) :
    ∃ r, createdAtBase v = .ok r := by
  cases v <;> first | exact ⟨_, rfl⟩ | exact absurd rfl h

namespace Home

theorem parseMilestoneDate_ok : ∀ (v : JSVal), v ≠ .tsThrow →
    ∃ r, parseMilestoneDate v = .ok r
  | .undef, _ => ⟨none, rfl⟩
  | .null, _ => ⟨none, rfl⟩
  | .num _, _ => ⟨none, rfl⟩
  | .date t, _ => ⟨some t, rfl⟩
  | .ts t, _ => ⟨some (some t), rfl⟩
  | .tsThrow, h => absurd rfl h
  | .str s, _ => ⟨(parseMilestoneString s).map some, rfl⟩

theorem msParseChecked_ok : ∀ (ms : List Milestone),
    (∀ m ∈ ms, m.date ≠ JSVal.tsThrow) → msParseChecked ms = .ok ()
  | [], _ => rfl
  | m :: rest, h => by
    obtain ⟨r, hr⟩ := parseMilestoneDate_ok m.date (h m (List.mem_cons_self _ _))
    unfold msParseChecked
    rw [hr]
    exact msParseChecked_ok rest (fun x hx => h x (List.mem_cons_of_mem _ hx))

theorem milestoneEarliest_ok (ms : List Milestone)
    (h : ∀ m ∈ ms, m.date ≠ JSVal.tsThrow) :
    ∃ r, milestoneEarliest ms = .ok r := by
  unfold milestoneEarliest
  rw [msParseChecked_ok ms h]
  repeat' split
  all_goals first
  | exact ⟨_, rfl⟩
  | (rename_i heq; exact absurd heq (by simp))

theorem parseDeadline_ok (v : JSVal) (h : v ≠ .tsThrow) :
    ∃ r, parseDeadline v = .ok r := by
  unfold parseDeadline
  split
  · cases v <;> first | exact ⟨_, rfl⟩ | exact absurd rfl h
  · exact ⟨none, rfl⟩

theorem getEarliestDeadline_ok (op : Opp)
    (hms : ∀ m ∈ op.dateMilestones.getD [], m.date ≠ JSVal.tsThrow)
    (hdl : op.deadline ≠ JSVal.tsThrow) (hca : op.createdAt ≠ JSVal.tsThrow) :
    (getEarliestDeadline op).isOk = true := by
  obtain ⟨rd, hrd⟩ := parseDeadline_ok op.deadline hdl
  obtain ⟨rc, hrc⟩ := createdAtBase_ok op.createdAt hca
  have hmsphase : ∃ r, milestonePhase op = .ok r := by
    unfold milestonePhase
    cases hdm : op.dateMilestones with
    | none => exact ⟨none, rfl⟩
    | some ms =>
      rw [hdm] at hms
      simp only [Option.getD_some] at hms
      change ∃ r, (if 0 < ms.length then milestoneEarliest ms
        else Except.ok none) = Except.ok r
      by_cases hlen : 0 < ms.length
      · rw [if_pos hlen]
        exact milestoneEarliest_ok ms hms
      · rw [if_neg hlen]
        exact ⟨none, rfl⟩
  obtain ⟨rm, hrm⟩ := hmsphase
  unfold getEarliestDeadline
  rw [hrm]
  cases rm with
  | some t => simp [Except.isOk, Except.toBool]
  | none =>
    rw [hrd]
    cases rd with
    | some t => simp [Except.isOk, Except.toBool]
    | none =>
      rw [hrc]
      simp [Except.isOk, Except.toBool]

theorem fromFullData_ok (f : FetchResult) (op : Opp)
    (h : (getEarliestDeadline op).isOk = true) :
    (getEarliestDeadlineFromFullData f op).isOk = true := by
  unfold getEarliestDeadlineFromFullData
  cases htb : fullDataTryBody f op with
  | ok v => simp [Except.isOk, Except.toBool]
  | error e => exact h

theorem fromFullData_of_msNonempty (f : FetchResult) (op : Opp)
    (h : msNonempty op = true) :
    getEarliestDeadlineFromFullData f op = getEarliestDeadline op := by
  unfold getEarliestDeadlineFromFullData fullDataTryBody
  rw [h]
  simp only [if_true]
  cases hg : getEarliestDeadline op <;> rfl

theorem deadlineEntry_ok (fetch : Opp → FetchResult) (op : Opp)
    (h : (getEarliestDeadline op).isOk = true) :
    ∃ d, deadlineEntry fetch op = .ok (op.id, d) := by
  obtain ⟨d0, hd0⟩ := (exceptIsOk_iff _).mp h
  unfold deadlineEntry
  cases hf : getEarliestDeadlineFromFullData (fetch op) op with
  | ok d => exact ⟨d, rfl⟩
  | error e => exact ⟨d0, by rw [hd0]⟩

theorem batchEntries_ok (fetch : Opp → FetchResult) : ∀ (b : List Opp),
    (∀ op ∈ b, (getEarliestDeadline op).isOk = true) →
    ∃ entries, batchEntries fetch b = .ok entries ∧
      entries.map Prod.fst = b.map Opp.id
  | [], _ => ⟨[], rfl, rfl⟩
  | op :: rest, h => by
    obtain ⟨d, hd⟩ := deadlineEntry_ok fetch op (h op (List.mem_cons_self _ _))
    obtain ⟨entries, he, hmap⟩ :=
      batchEntries_ok fetch rest (fun o ho => h o (List.mem_cons_of_mem _ ho))
    refine ⟨(op.id, d) :: entries, ?_, by simp [hmap]⟩
    unfold batchEntries
    rw [hd, he]

theorem cacheSet_mem_self (c : List (String × Option Int)) (k : String)
    (v : Option Int) : k ∈ (cacheSet c k v).map Prod.fst := by
  unfold cacheSet
  split
  · rename_i hany
    obtain ⟨p, hp, hpk⟩ := List.any_eq_true.mp hany
    have hpk' : p.1 = k := by simpa using hpk
    refine List.mem_map.mpr ⟨(k, v), List.mem_map.mpr ⟨p, hp, ?_⟩, rfl⟩
    simp [hpk']
  · simp

theorem cacheSet_mem_mono (c : List (String × Option Int)) (k k' : String)
    (v : Option Int) (h : k' ∈ c.map Prod.fst) :
    k' ∈ (cacheSet c k v).map Prod.fst := by
  unfold cacheSet
  split
  · obtain ⟨p, hp, hpk⟩ := List.mem_map.mp h
    by_cases hk : p.1 = k
    · refine List.mem_map.mpr ⟨(k, v), List.mem_map.mpr ⟨p, hp, by simp [hk]⟩, ?_⟩
      simp only [← hpk, hk]
    · refine List.mem_map.mpr ⟨p, List.mem_map.mpr ⟨p, hp, by simp [hk]⟩, hpk⟩
  · rw [List.map_append]
    exact List.mem_append_left _ h

theorem foldl_cacheSet_mem : ∀ (entries : List (String × Option Int))
    (c : List (String × Option Int)) (k : String),
    (k ∈ c.map Prod.fst ∨ k ∈ entries.map Prod.fst) →
    k ∈ ((entries.foldl (fun c2 ent => cacheSet c2 ent.1 ent.2) c).map Prod.fst)
  | [], c, k, h => by
    rcases h with h | h
    · exact h
    · simp at h
  | e :: rest, c, k, h => by
    simp only [List.foldl_cons]
    apply foldl_cacheSet_mem rest
    rcases h with h | h
    · exact Or.inl (cacheSet_mem_mono c e.1 k e.2 h)
    · simp only [List.map_cons, List.mem_cons] at h
      rcases h with h | h
      · rw [h]
        exact Or.inl (cacheSet_mem_self c e.1 e.2)
      · exact Or.inr h

theorem runBatches_ok (fetch : Opp → FetchResult) : ∀ (bs : List (List Opp)),
    (∀ op ∈ bs.flatten, (getEarliestDeadline op).isOk = true) →
    ∀ (c : List (String × Option Int)),
    ∃ cache, runBatches fetch bs c = .ok cache ∧
      ∀ k, (k ∈ c.map Prod.fst ∨ ∃ op ∈ bs.flatten, op.id = k) →
        k ∈ cache.map Prod.fst
  | [], _, c => by
    refine ⟨c, rfl, ?_⟩
    intro k hk
    rcases hk with hk | ⟨op, hop, _⟩
    · exact hk
    · simp at hop
  | b :: rest, h, c => by
    obtain ⟨entries, he, hmap⟩ := batchEntries_ok fetch b
      (fun op hop => h op (by rw [List.flatten_cons]; exact List.mem_append_left _ hop))
    obtain ⟨cache, hc, hkeys⟩ := runBatches_ok fetch rest
      (fun op hop => h op (by rw [List.flatten_cons]; exact List.mem_append_right _ hop))
      (entries.foldl (fun c2 ent => cacheSet c2 ent.1 ent.2) c)
    refine ⟨cache, ?_, ?_⟩
    · unfold runBatches
      rw [he]
      exact hc
    · intro k hk
      apply hkeys
      rcases hk with hk | ⟨op, hop, hid⟩
      · exact Or.inl (foldl_cacheSet_mem entries c k (Or.inl hk))
      · rw [List.flatten_cons, List.mem_append] at hop
        rcases hop with hop | hop
        · refine Or.inl (foldl_cacheSet_mem entries c k (Or.inr ?_))
          rw [hmap]
          exact List.mem_map.mpr ⟨op, hop, hid⟩
        · exact Or.inr ⟨op, hop, hid⟩

theorem sortWith_perm (key : Opp → Except Unit (Option Int)) (asc : Bool)
    (opps l' : List Opp) (h : sortWith key asc opps = .ok l') :
    List.Perm l' opps := by
  unfold sortWith at h
  split at h
  · exact absurd h (by simp)
  · simp only [Except.ok.injEq] at h
    rw [← h]
    exact insSortLe_perm _ _

theorem sortOpportunities_perm (sb : String) (opps l' : List Opp)
    (h : sortOpportunities sb opps = .ok l') : List.Perm l' opps := by
  unfold sortOpportunities at h
  split at h
  case h_5 =>
    simp only [Except.ok.injEq] at h
    rw [← h]
  all_goals exact sortWith_perm _ _ _ _ h

theorem sortOpportunities_default (sb : String) (opps : List Opp)
    (h1 : sb ≠ "newest") (h2 : sb ≠ "oldest") (h3 : sb ≠ "deadline-soon")
    (h4 : sb ≠ "deadline-far") : sortOpportunities sb opps = .ok opps := by
  unfold sortOpportunities
  split
  all_goals first
  | rfl
  | exact absurd rfl (by assumption)

theorem msParseChecked_ok2 : ∀ (ms : List Milestone),
    (∀ m ∈ ms, ∃ r, parseMilestoneDate m.date = .ok r) →
    msParseChecked ms = .ok ()
  | [], _ => rfl
  | m :: rest, h => by
    obtain ⟨r, hr⟩ := h m (List.mem_cons_self _ _)
    unfold msParseChecked
    rw [hr]
    exact msParseChecked_ok2 rest (fun x hx => h x (List.mem_cons_of_mem _ hx))

theorem milestonePhase_some (op : Opp) (ms : List Milestone)
    (hdm : op.dateMilestones = some ms) (hlen : 0 < ms.length) :
    milestonePhase op = milestoneEarliest ms := by
  unfold milestonePhase
  rw [hdm]
  change (if 0 < ms.length then milestoneEarliest ms
    else Except.ok none) = milestoneEarliest ms
  rw [if_pos hlen]

theorem milestonePhase_none (op : Opp)
    (h : ∀ ms, op.dateMilestones = some ms →
      ∀ m ∈ ms, parseMilestoneDate m.date = .ok none ∨
        parseMilestoneDate m.date = .ok (some none)) :
    milestonePhase op = .ok none := by
  unfold milestonePhase
  cases hdm : op.dateMilestones with
  | none => rfl
  | some ms =>
    have hms := h ms hdm
    change (if 0 < ms.length then milestoneEarliest ms
      else Except.ok none) = Except.ok none
    by_cases hlen : 0 < ms.length
    · rw [if_pos hlen]
      have hok : ∀ m ∈ ms, ∃ r, parseMilestoneDate m.date = .ok r := by
        intro m hm
        rcases hms m hm with h1 | h1
        · exact ⟨_, h1⟩
        · exact ⟨_, h1⟩
      unfold milestoneEarliest
      rw [msParseChecked_ok2 ms hok]
      cases hh : (insSortLe (fun a b =>
          milestoneKeyLe (milestoneKey a) (milestoneKey b)) ms).head? with
      | none => rfl
      | some m =>
        have hmem : m ∈ ms := by
          have hperm := insSortLe_perm
            (fun a b => milestoneKeyLe (milestoneKey a) (milestoneKey b)) ms
          refine hperm.mem_iff.mp (List.mem_of_mem_head? ?_)
          rw [hh]
          rfl
        rcases hms m hmem with h1 | h1
        · have hkey : milestoneKey m = none := by
            unfold milestoneKey
            rw [h1]
          simp only [hkey]
        · have hkey : milestoneKey m = some none := by
            unfold milestoneKey
            rw [h1]
          simp only [hkey]
    · rw [if_neg hlen]

theorem getEarliestDeadline_of_phase_some (op : Opp) (t : Int)
    (h : milestonePhase op = .ok (some t)) :
    getEarliestDeadline op = .ok (some t) := by
  unfold getEarliestDeadline
  rw [h]

theorem getEarliestDeadline_fallback (op : Opp) (base : Option Int)
    (h1 : milestonePhase op = .ok none)
    (h2 : parseDeadline op.deadline = .ok none)
    (h3 : createdAtBase op.createdAt = .ok base) :
    getEarliestDeadline op = .ok (base.map (fun t => t + thirtyDaysMs)) := by
  unfold getEarliestDeadline
  rw [h1, h2, h3]

end Home

namespace Debug

theorem flexMilestonePhase_some (tz : Int) (op : Opp) (ms : List Milestone)
    (hdm : op.dateMilestones = some ms) (hlen : 0 < ms.length) :
    milestonePhase tz op =
      (insSortLe (fun a b => decide (a ≤ b))
        (ms.filterMap (fun m => parseFlexibleDate tz m.date))).head? := by
  unfold milestonePhase
  rw [hdm]
  change (if 0 < ms.length then
    (insSortLe (fun a b => decide (a ≤ b))
      (ms.filterMap (fun m => parseFlexibleDate tz m.date))).head?
    else none) = _
  rw [if_pos hlen]

theorem flexMilestonePhase_none (tz : Int) (op : Opp)
    (h : ∀ ms, op.dateMilestones = some ms →
      ms.filterMap (fun m => parseFlexibleDate tz m.date) = []) :
    milestonePhase tz op = none := by
  unfold milestonePhase
  cases hdm : op.dateMilestones with
  | none => rfl
  | some ms =>
    change (if 0 < ms.length then
      (insSortLe (fun a b => decide (a ≤ b))
        (ms.filterMap (fun m => parseFlexibleDate tz m.date))).head?
      else none) = none
    by_cases hlen : 0 < ms.length
    · rw [if_pos hlen, h ms hdm]
      rfl
    · rw [if_neg hlen]

theorem flexGetEarliestDeadline_of_phase_some (tz : Int) (op : Opp) (t : Int)
    (h : milestonePhase tz op = some t) :
    getEarliestDeadline tz op = .ok (some t) := by
  unfold getEarliestDeadline
  rw [h]

theorem flexGetEarliestDeadline_fallback (tz : Int) (op : Opp) (base : Option Int)
    (h1 : milestonePhase tz op = none)
    (h2 : (if op.deadline.truthy then parseFlexibleDate tz op.deadline
           else none) = none)
    (h3 : createdAtBase op.createdAt = .ok base) :
    getEarliestDeadline tz op = .ok (base.map (fun t => t + thirtyDaysMs)) := by
  unfold getEarliestDeadline
  rw [h1, h2, h3]

theorem flexGetEarliestDeadline_ok (tz : Int) (op : Opp)
    (hca : op.createdAt ≠ JSVal.tsThrow) :
    (getEarliestDeadline tz op).isOk = true := by
  obtain ⟨rc, hrc⟩ := createdAtBase_ok op.createdAt hca
  unfold getEarliestDeadline
  cases hm : milestonePhase tz op with
  | some t => simp [Except.isOk, Except.toBool]
  | none =>
    cases hd : (if op.deadline.truthy then parseFlexibleDate tz op.deadline
                else none) with
    | some t => simp [Except.isOk, Except.toBool]
    | none =>
      rw [hrc]
      simp [Except.isOk, Except.toBool]

end Debug

/-! The claims. -/

/-- C4 counterexample: the claim that the synchronous resolver never raises
for any input record fails on records whose `createdAt` carries a throwing
`toDate` conversion — both copies of `getEarliestDeadline` propagate the
exception (there is no try/catch around the `createdAt` fallback, and in the
`Home.tsx` copy none around milestone and deadline parsing either). -/
theorem C4_counterexample :
    Home.getEarliestDeadline exThrowOp = .error () ∧
    Debug.getEarliestDeadline 0 exThrowOp = .error () := by
  constructor <;> rfl

/-- C4 (amended): the synchronous resolver is total as long as no consulted
field carries a throwing `toDate`: in the `Home.tsx` copy, whenever no
milestone date, the `deadline` field and `createdAt` are throwing-`toDate`
objects; in the `authDebugService.js` copy (whose `parseFlexibleDate` guards
`toDate` with try/catch), whenever `createdAt` is not a throwing-`toDate`
object.  Every non-throwing parse failure falls through to the next
strategy. -/
theorem C4_resolver_total_without_throwing_toDate :
    (∀ (op : Opp),
      (∀ m ∈ op.dateMilestones.getD [], m.date ≠ JSVal.tsThrow) →
      op.deadline ≠ JSVal.tsThrow → op.createdAt ≠ JSVal.tsThrow →
      (Home.getEarliestDeadline op).isOk = true) ∧
    (∀ (tz : Int) (op : Opp), op.createdAt ≠ JSVal.tsThrow →
      (Debug.getEarliestDeadline tz op).isOk = true) :=
  ⟨Home.getEarliestDeadline_ok, Debug.flexGetEarliestDeadline_ok⟩

/-- C4 witness at a concrete record with an unparseable milestone, an ISO
milestone and a numeric `createdAt`. -/
theorem C4_resolver_total_witness :
    (Home.getEarliestDeadline exMilestoneOp).isOk = true ∧
    (Debug.getEarliestDeadline 0 exMilestoneOp).isOk = true := by
  constructor
  · exact C4_resolver_total_without_throwing_toDate.1 exMilestoneOp
      (by decide) (by decide) (by decide)
  · exact C4_resolver_total_without_throwing_toDate.2 0 exMilestoneOp (by decide)

/-- C2 counterexample: on a record with no milestones, no deadline and no
`createdAt` at all, both resolver copies return `new Date(NaN)` — an Invalid
Date, `.ok none` in the model — so the resolver does not produce a valid
`Date` at this record, and in particular not "the current time plus 30
days" (a valid `Date`, `.ok (some t)` in the model): `new Date(undefined)`
is an Invalid Date and the 30-day offset is added to NaN. -/
theorem C2_counterexample :
    Home.getEarliestDeadline exEmptyOp = .ok none ∧
    returnsValidDate (Home.getEarliestDeadline exEmptyOp) = false ∧
    Debug.getEarliestDeadline 0 exEmptyOp = .ok none ∧
    returnsValidDate (Debug.getEarliestDeadline 0 exEmptyOp) = false := by
  refine ⟨rfl, rfl, rfl, rfl⟩

/-- C2 (amended): with no parseable milestone and no truthy-and-parseable
deadline, both resolver copies return the `createdAt` fallback base plus
exactly 30 days, where the base is the code's own conversion
`createdAt?.toDate?.() || new Date(createdAt)` (not the polymorphic date
parser).  When that base is a valid date — a Timestamp, a number, a `Date`,
an engine-parseable string, or `null` (which `new Date` coerces to epoch
zero) — the result is exactly that date plus 30 days and is a valid `Date`;
when `createdAt` is absent/`undefined` or an unparseable string, the base is
an Invalid Date and the result is an Invalid Date (the 30-day offset is
added to NaN), not a valid `Date` and in particular never "the current time
plus 30 days". -/
theorem C2_fallback_createdAt_plus_30_days :
    (∀ (op : Opp) (base : Option Int),
      (∀ ms, op.dateMilestones = some ms →
        ∀ m ∈ ms, Home.parseMilestoneDate m.date = .ok none ∨
          Home.parseMilestoneDate m.date = .ok (some none)) →
      Home.parseDeadline op.deadline = .ok none →
      createdAtBase op.createdAt = .ok base →
      Home.getEarliestDeadline op = .ok (base.map (fun t => t + thirtyDaysMs))) ∧
    (∀ (tz : Int) (op : Opp) (base : Option Int),
      (∀ ms, op.dateMilestones = some ms →
        ms.filterMap (fun m => Debug.parseFlexibleDate tz m.date) = []) →
      (if op.deadline.truthy then Debug.parseFlexibleDate tz op.deadline
       else none) = none →
      createdAtBase op.createdAt = .ok base →
      Debug.getEarliestDeadline tz op = .ok (base.map (fun t => t + thirtyDaysMs))) ∧
    (∀ (op : Opp) (t : Int),
      (∀ ms, op.dateMilestones = some ms →
        ∀ m ∈ ms, Home.parseMilestoneDate m.date = .ok none ∨
          Home.parseMilestoneDate m.date = .ok (some none)) →
      Home.parseDeadline op.deadline = .ok none →
      createdAtBase op.createdAt = .ok (some t) →
      Home.getEarliestDeadline op = .ok (some (t + thirtyDaysMs)) ∧
        returnsValidDate (Home.getEarliestDeadline op) = true) ∧
    (∀ (op : Opp),
      (∀ ms, op.dateMilestones = some ms →
        ∀ m ∈ ms, Home.parseMilestoneDate m.date = .ok none ∨
          Home.parseMilestoneDate m.date = .ok (some none)) →
      Home.parseDeadline op.deadline = .ok none →
      createdAtBase op.createdAt = .ok none →
      Home.getEarliestDeadline op = .ok none ∧
        returnsValidDate (Home.getEarliestDeadline op) = false) := by
  refine ⟨?_, ?_, ?_, ?_⟩
  · intro op base h1 h2 h3
    exact Home.getEarliestDeadline_fallback op base (Home.milestonePhase_none op h1) h2 h3
  · intro tz op base h1 h2 h3
    exact Debug.flexGetEarliestDeadline_fallback tz op base (Debug.flexMilestonePhase_none tz op h1) h2 h3
  · intro op t h1 h2 h3
    have h := Home.getEarliestDeadline_fallback op (some t)
      (Home.milestonePhase_none op h1) h2 h3
    refine ⟨by simpa using h, ?_⟩
    rw [h]
    rfl
  · intro op h1 h2 h3
    have h := Home.getEarliestDeadline_fallback op none
      (Home.milestonePhase_none op h1) h2 h3
    refine ⟨by simpa using h, ?_⟩
    rw [h]
    rfl

/-- C2 witness: a `createdAt` holding the epoch milliseconds of
2025-01-01T00:00:00Z resolves to 2025-01-31T00:00:00Z in both copies; a
`null` `createdAt` coerces to epoch zero and resolves to the valid date
1970-01-31T00:00:00Z; an unparseable `createdAt` string resolves to an
Invalid Date, not a valid one. -/
theorem C2_fallback_witness :
    Home.getEarliestDeadline exCreatedOp = .ok (some 1738281600000) ∧
    Debug.getEarliestDeadline 0 exCreatedOp = .ok (some 1738281600000) ∧
    (Home.getEarliestDeadline exNullCreatedOp = .ok (some 2592000000) ∧
      returnsValidDate (Home.getEarliestDeadline exNullCreatedOp) = true) ∧
    (Home.getEarliestDeadline exBadCreatedOp = .ok none ∧
      returnsValidDate (Home.getEarliestDeadline exBadCreatedOp) = false) := by
  refine ⟨?_, ?_, ?_, ?_⟩
  · have h := C2_fallback_createdAt_plus_30_days.1 exCreatedOp (some 1735689600000)
      (by intro ms hms; exact Option.noConfusion hms) (by rfl) (by rfl)
    simpa using h
  · have h := C2_fallback_createdAt_plus_30_days.2.1 0 exCreatedOp (some 1735689600000)
      (by intro ms hms; exact Option.noConfusion hms) (by rfl) (by rfl)
    simpa using h
  · have h := C2_fallback_createdAt_plus_30_days.2.2.1 exNullCreatedOp 0
      (by intro ms hms; exact Option.noConfusion hms) (by rfl) (by rfl)
    refine ⟨?_, h.2⟩
    have h1 := h.1
    simpa [thirtyDaysMs] using h1
  · exact C2_fallback_createdAt_plus_30_days.2.2.2 exBadCreatedOp
      (by intro ms hms; exact Option.noConfusion hms) (by rfl) (by rfl)

/-- C3 counterexample: the claim that `getEarliestDeadlineFromFullData`
never rejects for any record and fetch outcome fails on a record whose
`createdAt` carries a throwing `toDate`: the catch block falls back to the
synchronous resolver, which itself throws, so the promise rejects. -/
theorem C3_counterexample :
    Home.getEarliestDeadlineFromFullData Home.FetchResult.err exThrowFetchOp =
      .error () := by
  rfl

/-- C3 (amended): whenever the synchronous resolver does not throw on the
record, `getEarliestDeadlineFromFullData` resolves (never rejects) for every
fetch outcome — success, null result, missing milestones in the fetched
record, or a thrown fetch error; and a record that already carries a
non-empty `dateMilestones` list delegates directly to the synchronous
resolver, with a result independent of (and never consulting) the fetch. -/
theorem C3_full_data_resolver_total :
    (∀ (f : Home.FetchResult) (op : Opp),
      (Home.getEarliestDeadline op).isOk = true →
      (Home.getEarliestDeadlineFromFullData f op).isOk = true) ∧
    (∀ (f : Home.FetchResult) (op : Opp),
      Home.msNonempty op = true →
      Home.getEarliestDeadlineFromFullData f op = Home.getEarliestDeadline op) :=
  ⟨Home.fromFullData_ok, Home.fromFullData_of_msNonempty⟩

/-- C3 witness: a record without milestones resolves under a thrown fetch,
and a record with milestones resolves identically to the synchronous
resolver under every fetch outcome. -/
theorem C3_full_data_witness :
    (Home.getEarliestDeadlineFromFullData Home.FetchResult.err exCreatedOp).isOk = true ∧
    Home.getEarliestDeadlineFromFullData Home.FetchResult.err exMilestoneOp =
      Home.getEarliestDeadline exMilestoneOp := by
  constructor
  · exact C3_full_data_resolver_total.1 Home.FetchResult.err exCreatedOp (by decide)
  · exact C3_full_data_resolver_total.2 Home.FetchResult.err exMilestoneOp (by decide)

/-- C5: when the selected category is `"saved"`, the displayed list is
exactly the bookmarked collection (up to the order imposed by the sort):
every record of the output is bookmarked — its (id, originating partition)
pair matches a bookmark — and every bookmarked record appears; category
filtering is not applied (the result depends only on the bookmarked
collection). -/
theorem C5_saved_returns_exactly_bookmarked :
    ∀ (sortBy : String) (opportunities bookmarked l' : List Opp),
      Home.getDisplayedOpportunities "saved" sortBy opportunities bookmarked = .ok l' →
      List.Perm l' bookmarked ∧
      (∀ r ∈ l', isOpportunityBookmarked bookmarked r.id r.specificCollection = true) ∧
      (∀ b ∈ bookmarked, b ∈ l') := by
  intro sortBy opps bm l' h
  have hsort : Home.sortOpportunities sortBy bm = .ok l' := h
  have hperm := Home.sortOpportunities_perm sortBy bm l' hsort
  refine ⟨hperm, ?_, ?_⟩
  · intro r hr
    have hrbm : r ∈ bm := hperm.mem_iff.mp hr
    unfold isOpportunityBookmarked
    rw [List.any_eq_true]
    exact ⟨r, hrbm, by simp⟩
  · intro b hb
    exact hperm.mem_iff.mpr hb

/-- C5 witness at a one-element bookmarked collection. -/
theorem C5_saved_witness :
    List.Perm [exVerifiedOp] [exVerifiedOp] ∧
    (∀ r ∈ [exVerifiedOp],
      isOpportunityBookmarked [exVerifiedOp] r.id r.specificCollection = true) ∧
    (∀ b ∈ [exVerifiedOp], b ∈ [exVerifiedOp]) :=
  C5_saved_returns_exactly_bookmarked "newest" [] [exVerifiedOp] [exVerifiedOp]
    (by rfl)

/-- C6 counterexample: a record whose `category` field normalizes to
`"resources"` passes the filter when its `specificCollection` field is
populated with something else — the code lowercases
`specificCollection || category`, so a populated `specificCollection`
shadows the `category` field entirely. -/
theorem C6_counterexample :
    Home.filterOpportunities "all" [exShadowOp] = [exShadowOp] ∧
    exShadowOp.category = some "Resources" ∧
    exShadowOp.specificCollection = some "scholarships" := by
  refine ⟨?_, rfl, rfl⟩
  rfl

/-- C6 (amended): every record kept by the filter has an effective category
(`specificCollection || category || ""`, lowercased) different from
`"resources"` and `"resource"`, a `type` field different (case-sensitively)
from those literals, and an organization whose first populated verification
path equals `"verified"`.  A resources value carried only by a shadowed
`category` field, or a differently-cased `type`, is not excluded. -/
theorem C6_filter_exclusions :
    ∀ (cat : String) (opps : List Opp) (op : Opp),
      op ∈ Home.filterOpportunities cat opps →
      jsToLower (strOr op.specificCollection (strOr op.category "")) ≠ "resources" ∧
      jsToLower (strOr op.specificCollection (strOr op.category "")) ≠ "resource" ∧
      op.type ≠ some "resources" ∧ op.type ≠ some "resource" ∧
      isOpportunityOrganizationVerified op = true := by
  intro cat opps op hop
  unfold Home.filterOpportunities at hop
  rw [List.mem_filter] at hop
  obtain ⟨_, hpred⟩ := hop
  simp only [Bool.and_eq_true, bne_iff_ne, ne_eq] at hpred
  obtain ⟨⟨⟨⟨⟨h1, h2⟩, h3⟩, h4⟩, _⟩, h5⟩ := hpred
  exact ⟨h1, h2, h3, h4, h5⟩

/-- C6 witness at a concrete verified scholarships record. -/
theorem C6_filter_exclusions_witness :
    jsToLower (strOr exVerifiedOp.specificCollection (strOr exVerifiedOp.category "")) ≠ "resources" ∧
    jsToLower (strOr exVerifiedOp.specificCollection (strOr exVerifiedOp.category "")) ≠ "resource" ∧
    exVerifiedOp.type ≠ some "resources" ∧ exVerifiedOp.type ≠ some "resource" ∧
    isOpportunityOrganizationVerified exVerifiedOp = true :=
  C6_filter_exclusions "all" [exVerifiedOp] exVerifiedOp (by decide)

/-- C9: the saved view sorts the bookmarked collection directly, applying
neither the resources exclusion nor the verification filter: a bookmarked
record whose effective category normalizes to `"resources"` and whose
organization is unverified still appears in the displayed list, although the
filter used by every other category view would exclude it (from any
collection). -/
theorem C9_saved_view_skips_filters :
    ∀ (sortBy : String) (opportunities bookmarked : List Opp) (r : Opp)
      (l' : List Opp),
      r ∈ bookmarked →
      jsToLower (strOr r.specificCollection (strOr r.category "")) = "resources" →
      isOpportunityOrganizationVerified r = false →
      Home.getDisplayedOpportunities "saved" sortBy opportunities bookmarked = .ok l' →
      r ∈ l' ∧ ∀ (cat : String) (opps2 : List Opp),
        r ∉ Home.filterOpportunities cat opps2 := by
  intro sb opps bm r l' hr hres hver h
  have hsort : Home.sortOpportunities sb bm = .ok l' := h
  have hperm := Home.sortOpportunities_perm sb bm l' hsort
  refine ⟨hperm.mem_iff.mpr hr, ?_⟩
  intro cat opps2 hmem
  unfold Home.filterOpportunities at hmem
  rw [List.mem_filter] at hmem
  obtain ⟨_, hpred⟩ := hmem
  simp only [Bool.and_eq_true] at hpred
  rw [hpred.2] at hver
  exact Bool.noConfusion hver

/-- C9 witness: an unverified bookmarked resource record is displayed in the
saved view and excluded by the ordinary filter. -/
theorem C9_saved_view_witness :
    exSavedResourceOp ∈ [exSavedResourceOp] ∧
    ∀ (cat : String) (opps2 : List Opp),
      exSavedResourceOp ∉ Home.filterOpportunities cat opps2 :=
  C9_saved_view_skips_filters "newest" [] [exSavedResourceOp] exSavedResourceOp
    [exSavedResourceOp] (List.mem_singleton.mpr rfl) (by decide) (by decide)
    (by rfl)

/-- C10: both operations are non-destructive on their input array: the
filter allocates a fresh array and leaves the input array unchanged in the
store; the sort copies the input with a spread before sorting, so the input
array is unchanged by every sort key; and with an unrecognized sort key the
returned fresh array holds the input's elements in their original order. -/
theorem C10_filter_sort_nondestructive :
    (∀ (cat : String) (σ : List (List Opp)) (a : Nat), a < σ.length →
      Home.arrGet (Home.filterOpportunitiesStore cat σ a).1 a = Home.arrGet σ a) ∧
    (∀ (sb : String) (σ σ2 : List (List Opp)) (a r : Nat), a < σ.length →
      Home.sortOpportunitiesStore sb σ a = .ok (σ2, r) →
      Home.arrGet σ2 a = Home.arrGet σ a) ∧
    (∀ (sb : String) (σ σ2 : List (List Opp)) (a r : Nat), a < σ.length →
      sb ≠ "newest" → sb ≠ "oldest" → sb ≠ "deadline-soon" →
      sb ≠ "deadline-far" →
      Home.sortOpportunitiesStore sb σ a = .ok (σ2, r) →
      Home.arrGet σ2 r = Home.arrGet σ a) := by
  refine ⟨?_, ?_, ?_⟩
  · intro cat σ a ha
    unfold Home.filterOpportunitiesStore Home.arrGet
    exact List.getD_append _ _ _ _ ha
  · intro sb σ σ2 a r ha h
    unfold Home.sortOpportunitiesStore at h
    cases hs : Home.sortOpportunities sb (Home.arrGet σ a) with
    | error e => rw [hs] at h; exact absurd h (by simp)
    | ok l2 =>
      rw [hs] at h
      simp only [Except.ok.injEq, Prod.mk.injEq] at h
      obtain ⟨hσ, hr⟩ := h
      rw [← hσ]
      unfold Home.arrGet
      rw [List.getD_eq_getElem?_getD, List.getElem?_set_ne (by omega),
        ← List.getD_eq_getElem?_getD, List.getD_append _ _ _ _ ha]
  · intro sb σ σ2 a r ha h1 h2 h3 h4 h
    unfold Home.sortOpportunitiesStore at h
    rw [Home.sortOpportunities_default sb (Home.arrGet σ a) h1 h2 h3 h4] at h
    simp only [Except.ok.injEq, Prod.mk.injEq] at h
    obtain ⟨hσ, hr⟩ := h
    rw [← hσ, ← hr]
    unfold Home.arrGet
    rw [List.getD_eq_getElem?_getD, List.getElem?_set_self (by simp),
      Option.getD_some]

/-- C10 witness at a one-array store. -/
theorem C10_nondestructive_witness :
    Home.arrGet (Home.filterOpportunitiesStore "all" [[exVerifiedOp]] 0).1 0 =
      Home.arrGet [[exVerifiedOp]] 0 ∧
    (∀ (σ2 : List (List Opp)) (r : Nat),
      Home.sortOpportunitiesStore "newest" [[exVerifiedOp]] 0 = .ok (σ2, r) →
      Home.arrGet σ2 0 = Home.arrGet [[exVerifiedOp]] 0) ∧
    (∀ (σ2 : List (List Opp)) (r : Nat),
      Home.sortOpportunitiesStore "weird" [[exVerifiedOp]] 0 = .ok (σ2, r) →
      Home.arrGet σ2 r = Home.arrGet [[exVerifiedOp]] 0) := by
  refine ⟨?_, ?_, ?_⟩
  · exact C10_filter_sort_nondestructive.1 "all" [[exVerifiedOp]] 0 (by decide)
  · intro σ2 r h
    exact C10_filter_sort_nondestructive.2.1 "newest" [[exVerifiedOp]] σ2 0 r
      (by decide) h
  · intro σ2 r h
    exact C10_filter_sort_nondestructive.2.2 "weird" [[exVerifiedOp]] σ2 0 r
      (by decide) (by decide) (by decide) (by decide) (by decide) h

/-- C8: batch enrichment processes the records in consecutive batches of
five (their concatenation is the input list, there are exactly
`ceil(n / 5)` batches, and every batch has five records except possibly the
last, whose size is `n mod 5` when nonzero); and whenever every record's
synchronous resolution succeeds, the loop resolves and the resulting cache
holds an entry for every record's id, whatever the individual fetch
outcomes (every fetch failure yields a fallback entry, not a missing
one). -/
theorem C8_batch_enrichment :
    (∀ (l : List Opp),
      (Home.chunks5 l).flatten = l ∧
      (Home.chunks5 l).length = (l.length + 4) / 5 ∧
      (∀ c ∈ Home.chunks5 l, c.length = 5 ∨
        (c.length = l.length % 5 ∧ (Home.chunks5 l).getLast? = some c))) ∧
    (∀ (fetch : Opp → Home.FetchResult) (opps : List Opp),
      (∀ op ∈ opps, (Home.getEarliestDeadline op).isOk = true) →
      ∃ cache, Home.fetchOpportunityDeadlines fetch opps = .ok cache ∧
        ∀ op ∈ opps, op.id ∈ cache.map Prod.fst) := by
  constructor
  · intro l
    exact ⟨Home.chunks5_flatten l, Home.chunks5_length l, Home.chunks5_sizes l⟩
  · intro fetch opps h
    obtain ⟨cache, hc, hkeys⟩ := Home.runBatches_ok fetch (Home.chunks5 opps)
      (by rw [Home.chunks5_flatten]; exact h) []
    refine ⟨cache, hc, ?_⟩
    intro op hop
    refine hkeys op.id (Or.inr ⟨op, ?_, rfl⟩)
    rw [Home.chunks5_flatten]
    exact hop

/-- C8 witness: twelve records give three batches of sizes 5, 5 and 2, and
under a fetch oracle mixing a thrown error, a null result and successes,
the cache holds all twelve ids. -/
theorem C8_batch_enrichment_witness :
    (Home.chunks5 ex12).length = 3 ∧
    (∀ c ∈ Home.chunks5 ex12, c.length = 5 ∨
      (c.length = 2 ∧ (Home.chunks5 ex12).getLast? = some c)) ∧
    ∃ cache, Home.fetchOpportunityDeadlines exFetch ex12 = .ok cache ∧
      ∀ op ∈ ex12, op.id ∈ cache.map Prod.fst := by
  refine ⟨?_, ?_, ?_⟩
  · have h := (C8_batch_enrichment.1 ex12).2.1
    simpa using h
  · have h := (C8_batch_enrichment.1 ex12).2.2
    simpa using h
  · exact C8_batch_enrichment.2 exFetch ex12 (by decide)

theorem Debug.parseFlexibleDate_str_engine (tz : Int) (s : String) (t : Int)
    (h0 : s ≠ "") (h1 : jsDateParse s = some t) :
    Debug.parseFlexibleDate tz (.str s) = some t := by
  unfold Debug.parseFlexibleDate
  rw [if_pos (by simp [JSVal.truthy, h0])]
  simp only [h1]

theorem Debug.parseFlexibleDate_str_month (tz : Int) (s monthStr : String)
    (day year m : Int) (h0 : s ≠ "") (h1 : jsDateParse s = none)
    (h2 : matchMonthDayYear s = some (monthStr, day, year))
    (h3 : monthIndex (jsToLower monthStr) = some m) :
    Debug.parseFlexibleDate tz (.str s) = some (jsMakeDayLocal tz year m day) := by
  unfold Debug.parseFlexibleDate
  rw [if_pos (by simp [JSVal.truthy, h0])]
  simp only [h1, h2, h3]

theorem jsMakeDayLocal_nov18 (tz : Int) :
    jsMakeDayLocal tz 2025 10 18 = 1763424000000 - tz * 60000 := by
  show daysFromCivil (2025 + (10 : Int).fdiv 12) ((10 : Int).emod 12 + 1) 18 *
    msPerDay - tz * 60000 = 1763424000000 - tz * 60000
  rw [show ((10 : Int).fdiv 12) = 0 from by decide,
    show ((10 : Int).emod 12) = 10 from by decide]
  norm_num
  rw [show daysFromCivil 2025 11 18 = 20410 from by decide]
  norm_num [msPerDay]

/-- C7 counterexample: at local UTC offset -300 minutes (five hours west), the
ISO string parses to UTC midnight of Nov 18 while the month-name string
parses to local midnight of Nov 18; the two instants fall on different local
calendar days (Nov 17 versus Nov 18), so the three formats do not all
denote the same calendar date. -/
theorem C7_counterexample :
    Debug.parseFlexibleDate (-300) (.str "2025-11-18") = some 1763424000000 ∧
    Debug.parseFlexibleDate (-300) (.str "Nov 18, 2025") = some 1763442000000 ∧
    localDayOfInstant (-300) 1763424000000 ≠
      localDayOfInstant (-300) 1763442000000 := by
  refine ⟨by rfl, by rfl, by decide⟩

/-- C7 (amended): all three date strings parse successfully; the two
month-name forms parse (through the manual month table and the
`new Date(year, month, day)` constructor) to local midnight of
Nov 18, 2025, and the ISO form (through the host parser, which the
ECMAScript standard requires to treat date-only strings as UTC) to UTC
midnight of Nov 18, 2025.  The month-name values always fall on local
calendar day 20410 (Nov 18, 2025); the ISO value falls on that same local
day exactly when the local UTC offset is in `[0, 1440)` minutes — at
negative (west-of-Greenwich) offsets it displays as Nov 17, 2025. -/
theorem C7_date_formats (tz : Int) :
    Debug.parseFlexibleDate tz (.str "Nov 18, 2025") =
      some (1763424000000 - tz * 60000) ∧
    Debug.parseFlexibleDate tz (.str "November 18, 2025") =
      some (1763424000000 - tz * 60000) ∧
    Debug.parseFlexibleDate tz (.str "2025-11-18") = some 1763424000000 ∧
    localDayOfInstant tz (1763424000000 - tz * 60000) = 20410 ∧
    (localDayOfInstant tz 1763424000000 = 20410 ↔ 0 ≤ tz ∧ tz < 1440) := by
  refine ⟨?_, ?_, ?_, ?_, ?_⟩
  · rw [Debug.parseFlexibleDate_str_month tz _ "Nov" 18 2025 10 (by decide)
      (by rfl) (by rfl) (by rfl), jsMakeDayLocal_nov18]
  · rw [Debug.parseFlexibleDate_str_month tz _ "November" 18 2025 10 (by decide)
      (by rfl) (by rfl) (by rfl), jsMakeDayLocal_nov18]
  · exact Debug.parseFlexibleDate_str_engine tz _ _ (by decide) (by rfl)
  · unfold localDayOfInstant msPerDay
    omega
  · unfold localDayOfInstant msPerDay
    omega

theorem Home.validTime_iff (m : Milestone) (t : Int) :
    (match Home.parseMilestoneDate m.date with
     | .ok (some (some t2)) => some t2
     | _ => none) = some t ↔
    Home.parseMilestoneDate m.date = .ok (some (some t)) := by
  cases hp : Home.parseMilestoneDate m.date with
  | error e => simp
  | ok k =>
    match k with
    | none => simp
    | some none => simp
    | some (some t2) => simp

theorem Debug.flexMilestone_min (tz : Int) (op : Opp) (ms : List Milestone)
    (hdm : op.dateMilestones = some ms)
    (hvalid : ms.filterMap (fun m => Debug.parseFlexibleDate tz m.date) ≠ []) :
    ∃ t0, Debug.getEarliestDeadline tz op = .ok (some t0) ∧
      t0 ∈ ms.filterMap (fun m => Debug.parseFlexibleDate tz m.date) ∧
      ∀ t ∈ ms.filterMap (fun m => Debug.parseFlexibleDate tz m.date), t0 ≤ t := by
  have hlen : 0 < ms.length := by
    cases ms with
    | nil => simp at hvalid
    | cons a l => simp
  obtain ⟨x, hhead, hxmem, hxmin⟩ := insSortLe_head_min
    (fun a b => decide (a ≤ b))
    (ms.filterMap (fun m => Debug.parseFlexibleDate tz m.date)) hvalid
    (fun a _ b _ => by
      rcases Int.le_total a b with h | h
      · exact Or.inl (decide_eq_true h)
      · exact Or.inr (decide_eq_true h))
    (fun a _ b _ c _ hab hbc =>
      decide_eq_true (le_trans (of_decide_eq_true hab) (of_decide_eq_true hbc)))
  refine ⟨x, ?_, hxmem, fun t ht => of_decide_eq_true (hxmin t ht)⟩
  refine Debug.flexGetEarliestDeadline_of_phase_some tz op x ?_
  rw [Debug.flexMilestonePhase_some tz op ms hdm hlen, hhead]

theorem Home.milestoneEarliest_min (ms : List Milestone)
    (hclean : ∀ m ∈ ms, Home.parseMilestoneDate m.date = .ok none ∨
      ∃ t, Home.parseMilestoneDate m.date = .ok (some (some t)))
    (hvalid : Home.validMilestoneTimes ms ≠ []) :
    ∃ t0, Home.milestoneEarliest ms = .ok (some t0) ∧
      t0 ∈ Home.validMilestoneTimes ms ∧
      ∀ t ∈ Home.validMilestoneTimes ms, t0 ≤ t := by
  have hkey : ∀ m ∈ ms, Home.milestoneKey m = none ∨
      ∃ t, Home.milestoneKey m = some (some t) := by
    intro m hm
    rcases hclean m hm with h | ⟨t, h⟩
    · exact Or.inl (by unfold Home.milestoneKey; rw [h])
    · exact Or.inr ⟨t, by unfold Home.milestoneKey; rw [h]⟩
  have hok : ∀ m ∈ ms, ∃ r, Home.parseMilestoneDate m.date = .ok r := by
    intro m hm
    rcases hclean m hm with h | ⟨t, h⟩
    · exact ⟨_, h⟩
    · exact ⟨_, h⟩
  have hchk := Home.msParseChecked_ok2 ms hok
  have hne : ms ≠ [] := by
    intro h
    rw [h] at hvalid
    exact hvalid rfl
  obtain ⟨m0, hhead, hm0, hmin⟩ := insSortLe_head_min
    (fun a b => Home.milestoneKeyLe (Home.milestoneKey a) (Home.milestoneKey b))
    ms hne
    (fun a ha b hb => by
      rcases hkey a ha with hka | ⟨ta, hka⟩ <;> rcases hkey b hb with hkb | ⟨tb, hkb⟩
      · exact Or.inl (by simp [Home.milestoneKeyLe, hka, hkb])
      · exact Or.inr (by simp [Home.milestoneKeyLe, hka, hkb])
      · exact Or.inl (by simp [Home.milestoneKeyLe, hka, hkb])
      · rcases Int.le_total ta tb with h | h
        · exact Or.inl (by simp [Home.milestoneKeyLe, hka, hkb, h])
        · exact Or.inr (by simp [Home.milestoneKeyLe, hka, hkb, h]))
    (fun a ha b hb c hc hab hbc => by
      rcases hkey a ha with hka | ⟨ta, hka⟩ <;> rcases hkey b hb with hkb | ⟨tb, hkb⟩ <;>
        rcases hkey c hc with hkc | ⟨tc, hkc⟩
      all_goals first
      | (simp [Home.milestoneKeyLe, hka, hkc]; done)
      | (simp [Home.milestoneKeyLe, hkb, hkc] at hbc; done)
      | (simp [Home.milestoneKeyLe, hka, hkb] at hab; done)
      | (simp [Home.milestoneKeyLe, hka, hkb] at hab;
         simp [Home.milestoneKeyLe, hkb, hkc] at hbc;
         simp [Home.milestoneKeyLe, hka, hkc];
         exact le_trans hab hbc))
  obtain ⟨t1, ht1⟩ : ∃ t1, t1 ∈ Home.validMilestoneTimes ms := by
    cases hv : Home.validMilestoneTimes ms with
    | nil => exact absurd hv hvalid
    | cons t1 ts => exact ⟨t1, List.mem_cons_self _ _⟩
  obtain ⟨m1, hm1mem, hm1f⟩ := List.mem_filterMap.mp ht1
  have hm1parse := (Home.validTime_iff m1 t1).mp hm1f
  have hm1key : Home.milestoneKey m1 = some (some t1) := by
    unfold Home.milestoneKey
    rw [hm1parse]
  obtain ⟨t0, hkey0⟩ : ∃ t0, Home.milestoneKey m0 = some (some t0) := by
    rcases hkey m0 hm0 with hk | hk
    · have hcontr := hmin m1 hm1mem
      simp [Home.milestoneKeyLe, hk, hm1key] at hcontr
    · exact hk
  have hparse0 : Home.parseMilestoneDate m0.date = .ok (some (some t0)) := by
    rcases hclean m0 hm0 with h | ⟨t2, h⟩
    · have : Home.milestoneKey m0 = none := by unfold Home.milestoneKey; rw [h]
      rw [this] at hkey0
      exact Option.noConfusion hkey0
    · have hk2 : Home.milestoneKey m0 = some (some t2) := by
        unfold Home.milestoneKey
        rw [h]
      rw [hkey0] at hk2
      simp only [Option.some.injEq] at hk2
      rw [← hk2] at h
      exact h
  refine ⟨t0, ?_, ?_, ?_⟩
  · unfold Home.milestoneEarliest
    rw [hchk]
    simp only [hhead, hkey0]
  · exact List.mem_filterMap.mpr ⟨m0, hm0, (Home.validTime_iff m0 t0).mpr hparse0⟩
  · intro t ht
    obtain ⟨m2, hm2mem, hm2f⟩ := List.mem_filterMap.mp ht
    have hm2key : Home.milestoneKey m2 = some (some t) := by
      unfold Home.milestoneKey
      rw [(Home.validTime_iff m2 t).mp hm2f]
    have hle := hmin m2 hm2mem
    simp [Home.milestoneKeyLe, hkey0, hm2key] at hle
    exact hle

theorem Home.milestone_min (op : Opp) (ms : List Milestone)
    (hdm : op.dateMilestones = some ms)
    (hclean : ∀ m ∈ ms, Home.parseMilestoneDate m.date = .ok none ∨
      ∃ t, Home.parseMilestoneDate m.date = .ok (some (some t)))
    (hvalid : Home.validMilestoneTimes ms ≠ []) :
    ∃ t0, Home.getEarliestDeadline op = .ok (some t0) ∧
      t0 ∈ Home.validMilestoneTimes ms ∧
      ∀ t ∈ Home.validMilestoneTimes ms, t0 ≤ t := by
  obtain ⟨t0, hme, hmem, hmin⟩ := Home.milestoneEarliest_min ms hclean hvalid
  have hlen : 0 < ms.length := by
    cases ms with
    | nil => simp [Home.validMilestoneTimes] at hvalid
    | cons a l => simp
  refine ⟨t0, ?_, hmem, hmin⟩
  refine Home.getEarliestDeadline_of_phase_some op t0 ?_
  rw [Home.milestonePhase_some op ms hdm hlen, hme]

/-- C1: whenever a record's non-empty `dateMilestones` list has at least one
milestone whose date parses, the resolver returns the minimum of the
successfully parsed milestone dates, and unparseable milestones never supply
the returned date.  For the `authDebugService.js` copy this holds for every
record; for the `Home.tsx` copy it holds whenever every milestone date
either parses to a valid date or fails cleanly (is not an Invalid-Date
object, whose NaN time would make the sort comparator inconsistent, and not
a throwing `toDate`, which would raise). -/
theorem C1_earliest_deadline_is_min_of_parsed :
    (∀ (tz : Int) (op : Opp) (ms : List Milestone),
      op.dateMilestones = some ms →
      ms.filterMap (fun m => Debug.parseFlexibleDate tz m.date) ≠ [] →
      ∃ t0, Debug.getEarliestDeadline tz op = .ok (some t0) ∧
        t0 ∈ ms.filterMap (fun m => Debug.parseFlexibleDate tz m.date) ∧
        ∀ t ∈ ms.filterMap (fun m => Debug.parseFlexibleDate tz m.date), t0 ≤ t) ∧
    (∀ (op : Opp) (ms : List Milestone),
      op.dateMilestones = some ms →
      (∀ m ∈ ms, Home.parseMilestoneDate m.date = .ok none ∨
        ∃ t, Home.parseMilestoneDate m.date = .ok (some (some t))) →
      Home.validMilestoneTimes ms ≠ [] →
      ∃ t0, Home.getEarliestDeadline op = .ok (some t0) ∧
        t0 ∈ Home.validMilestoneTimes ms ∧
        ∀ t ∈ Home.validMilestoneTimes ms, t0 ≤ t) :=
  ⟨Debug.flexMilestone_min, Home.milestone_min⟩

/-- C1 witness at a record with milestones `2025-12-01`, `bad-date` and
`2025-11-20`: both resolver copies return Nov 20, the minimum of the two
parsed dates, and the unparseable milestone is discarded. -/
theorem C1_earliest_deadline_witness :
    (∃ t0, Debug.getEarliestDeadline 0 exMilestoneOp = .ok (some t0) ∧
      t0 ∈ exMilestones.filterMap (fun m => Debug.parseFlexibleDate 0 m.date) ∧
      ∀ t ∈ exMilestones.filterMap (fun m => Debug.parseFlexibleDate 0 m.date),
        t0 ≤ t) ∧
    (∃ t0, Home.getEarliestDeadline exMilestoneOp = .ok (some t0) ∧
      t0 ∈ Home.validMilestoneTimes exMilestones ∧
      ∀ t ∈ Home.validMilestoneTimes exMilestones, t0 ≤ t) := by
  constructor
  · exact C1_earliest_deadline_is_min_of_parsed.1 0 exMilestoneOp exMilestones
      rfl (by decide)
  · refine C1_earliest_deadline_is_min_of_parsed.2 exMilestoneOp exMilestones
      rfl ?_ (by decide)
    intro m hm
    simp only [exMilestones, List.mem_cons, List.not_mem_nil, or_false] at hm
    rcases hm with rfl | rfl | rfl
    · exact Or.inr ⟨1764547200000, by rfl⟩
    · exact Or.inl (by rfl)
    · exact Or.inr ⟨1763596800000, by rfl⟩

end LearnLocal
